import Mathlib

set_option maxRecDepth 10000

/-!
Verification of the change-summarization core of the `autocommiter`
repository (`src/extension.ts`): the Summary Compressor
(`compressToJson`) and the Diff Inspector (`analyzeFileChange`,
`buildFileChanges`).

JavaScript strings are modelled as `List Char`; string `.length` is list
length (the sources only manipulate characters in the basic plane, where
the two notions of length agree).
-/

/-- A JavaScript string, modelled as a list of characters. -/
abbrev JStr := List Char

/-- Convenience conversion from a Lean string literal. -/
def jstr (s : String) : JStr := s.toList

/-- One per-file change summary, as produced by `buildFileChanges`
(`{ file, change }` in `extension.ts`). -/
structure FileChange where
  file : JStr
  change : JStr
deriving DecidableEq

instance : Inhabited FileChange := ⟨⟨[], []⟩⟩

/-- Global replacement of the single character `t` by `rep`, modelling
`String.prototype.replace` with a global single-character pattern. -/
def replaceAll (t : Char) (rep : JStr) : JStr → JStr
  | [] => []
  | c :: cs => (if c = t then rep else [c]) ++ replaceAll t rep cs

/-- The `escapeStr` helper of `compressToJson`:
`s.replace(/\\/g,'\\\\').replace(/"/g,'\\"').replace(/\n/g,'\\n').replace(/\r/g,'\\r')`,
applied innermost (backslash) first. -/
def escapeStr (s : JStr) : JStr :=
  replaceAll '\r' (jstr "\\r")
    (replaceAll '\n' (jstr "\\n")
      (replaceAll '"' (jstr "\\\"")
        (replaceAll '\\' (jstr "\\\\") s)))

/-- One serialized entry: `{"f":"<escaped file>","c":"<escaped mapped change>"}`.
In the source the map function is declared with one parameter `c` (the
`f` argument passed at the call site is ignored by every tier map). -/
def serItem (mapFn : JStr → JStr) (fc : FileChange) : JStr :=
  jstr "\x7b\"f\":\"" ++ escapeStr fc.file ++ jstr "\",\"c\":\"" ++
    escapeStr (mapFn fc.change) ++ jstr "\"\x7d"

/-- `Array.prototype.join(',')`. -/
def joinComma : List JStr → JStr
  | [] => []
  | [x] => x
  | x :: y :: ys => x ++ ',' :: joinComma (y :: ys)

/-- The `serialize` helper of `compressToJson`:
`` `{"files": [${items.join(',')}]}` ``. -/
def serialize (arr : List FileChange) (mapFn : JStr → JStr) : JStr :=
  jstr "\x7b\"files\": [" ++ joinComma (arr.map (serItem mapFn)) ++ jstr "]\x7d"

/-- The tiered map functions pushed onto `maps` in `compressToJson`:
full descriptor, then `slice(0,12)`, `slice(0,6)`, `slice(0,3)`, `slice(0,1)`. -/
def tierMaps : List (JStr → JStr) :=
  [fun c => c, fun c => c.take 12, fun c => c.take 6, fun c => c.take 3,
   fun c => c.take 1]

/-- `maps[m]` (only indices below `tierMaps.length` are ever used). -/
def tierMap (m : Nat) : JStr → JStr := tierMaps.getD m (fun c => c)

/-- The fit test of the inner loop: `s.length <= maxLen` for
`s = serialize(fileChanges.slice(0, keep), maps[m])`.  The budget is an
`Int` because JavaScript callers may pass any number, including
non-positive ones. -/
def fitsB (fileChanges : List FileChange) (maxLen : Int) (m k : Nat) : Bool :=
  ((serialize (fileChanges.take k) (tierMap m)).length : Int) ≤ maxLen

/-- The inner loop `for (let keep = fileChanges.length; keep > 0; keep--)`:
returns the first `keep ≤ k0` (scanning downward) whose serialization fits,
or `none`. -/
def innerFind (fileChanges : List FileChange) (maxLen : Int) (m : Nat) :
    Nat → Option Nat
  | 0 => none
  | k + 1 =>
    if fitsB fileChanges maxLen m (k + 1) then some (k + 1)
    else innerFind fileChanges maxLen m k

/-- The outer loop `for (let m = 0; m < maps.length; m++)`, iterating over
the listed tier indices: returns the first `(m, keep)` pair, tier index
ascending and keep count descending, whose serialization fits. -/
def outerFind (fileChanges : List FileChange) (maxLen : Int) :
    List Nat → Option (Nat × Nat)
  | [] => none
  | m :: ms =>
    match innerFind fileChanges maxLen m fileChanges.length with
    | some k => some (m, k)
    | none => outerFind fileChanges maxLen ms

/-- `JSON.stringify({ files: [] })` — note: no space after the colon,
unlike the `serialize` template. -/
def jsonEmpty : JStr := jstr "\x7b\"files\":[]\x7d"

/-- `compressToJson(fileChanges, maxLen)` from `extension.ts`: empty input
short-circuits to `JSON.stringify({files: []})`; otherwise the nested
loops return the first fitting serialization; as a last resort the code
returns `JSON.stringify({files: []})` again. -/
def compressToJson (fileChanges : List FileChange) (maxLen : Int) : JStr :=
  if fileChanges.length = 0 then jsonEmpty
  else
    match outerFind fileChanges maxLen (List.range tierMaps.length) with
    | some (m, k) => serialize (fileChanges.take k) (tierMap m)
    | none => jsonEmpty

example :
    compressToJson [⟨jstr "a.ts", jstr "3+/1-"⟩] 400 =
      jstr "\x7b\"files\": [\x7b\"f\":\"a.ts\",\"c\":\"3+/1-\"\x7d]\x7d" := by
  decide

example : compressToJson [⟨jstr "a.ts", jstr "mod"⟩] 20 = jsonEmpty := by
  decide

/-- JavaScript whitespace test (`\s` / `String.prototype.trim`), restricted
to the ASCII range the sources can meet (the full JS class also contains
Unicode space separators, irrelevant to git output). -/
def isJsSpace (c : Char) : Bool :=
  c = ' ' || c = '\t' || c = '\n' || c = '\r' || c = '\x0b' || c = '\x0c'

/-- `String.prototype.trim()`. -/
def jsTrim (s : JStr) : JStr :=
  ((s.dropWhile isJsSpace).reverse.dropWhile isJsSpace).reverse

/-- `runGit` post-processing: `String(stdout || '').trim()`; a rejected
promise propagates as an exception (`Except.error`). -/
def runGitResult (raw : Except Unit JStr) : Except Unit JStr :=
  raw.map jsTrim

/-- `split(/\r?\n/)`: split on a newline, optionally preceded by a
carriage return (a lone `\r` does not split). -/
def splitCRLF : JStr → List JStr
  | [] => [[]]
  | '\r' :: '\n' :: rest => [] :: splitCRLF rest
  | '\n' :: rest => [] :: splitCRLF rest
  | c :: rest =>
    match splitCRLF rest with
    | [] => [[c]]
    | l :: ls => (c :: l) :: ls

/-- `replace(/\s+/g, ' ')`: collapse every whitespace run to one space.
The flag records whether the previous character was part of a run. -/
def collapseWsAux (prevWs : Bool) : JStr → JStr
  | [] => []
  | c :: rest =>
    if isJsSpace c then
      (if prevWs then [] else [' ']) ++ collapseWsAux true rest
    else c :: collapseWsAux false rest

/-- `replace(/\s+/g, ' ')` on a whole string. -/
def collapseWs (s : JStr) : JStr := collapseWsAux false s

/-- Leading decimal digits of a string, `none` when there is none
(the digit-consuming core of `parseInt(s, 10)`). -/
def parseDigits (s : JStr) : Option Nat :=
  let ds := s.takeWhile Char.isDigit
  if ds.isEmpty then none
  else some (ds.foldl (fun acc c => acc * 10 + (c.toNat - '0'.toNat)) 0)

/-- `parseInt(s, 10)`: skip leading whitespace, optional sign, leading
digits; `none` models `NaN`. -/
def jsParseInt (s : JStr) : Option Int :=
  let t := s.dropWhile isJsSpace
  match t with
  | '-' :: rest => (parseDigits rest).map (fun n => -(n : Int))
  | '+' :: rest => (parseDigits rest).map (fun n => (n : Int))
  | _ => (parseDigits t).map (fun n => (n : Int))

/-- `parseInt(s, 10) || 0`: `NaN` collapses to `0`. -/
def parseIntOr0 (s : JStr) : Int := (jsParseInt s).getD 0

/-- Decimal rendering of an integer, as template-literal interpolation
`` `${a}` `` renders a JavaScript number holding an integer. -/
def intStr (n : Int) : JStr := (toString n).toList

instance : DecidableEq (Except Unit JStr) := fun a b =>
  match a, b with
  | .error (), .error () => isTrue rfl
  | .error (), .ok _ => isFalse (fun h => Except.noConfusion h)
  | .ok _, .error () => isFalse (fun h => Except.noConfusion h)
  | .ok s, .ok t =>
    if h : s = t then isTrue (h ▸ rfl)
    else isFalse (fun hh => h (by cases hh; rfl))

/-- The two external diff queries `analyzeFileChange` can make for one
file: raw stdout of `git diff --staged --numstat -- <file>` and of
`git diff --staged --unified=0 -- <file>`; `Except.error` models a
rejected promise (process or I/O failure). -/
structure DiffOracle where
  numstat : Except Unit JStr
  hunks : Except Unit JStr
deriving DecidableEq

/-- `analyzeFileChange(cwd, file)` from `extension.ts`, as a function of
the two git query outcomes for that file.  The surrounding `try`/`catch`
turns any query failure into the literal `"err"`. -/
def analyzeFileChange (oracle : DiffOracle) : JStr :=
  match runGitResult oracle.numstat with
  | .error _ => jstr "err"
  | .ok diff =>
    if diff.isEmpty then jstr "unchanged"
    else
      let parts := List.splitOn '\t' ((splitCRLF diff).headD [])
      if 3 ≤ parts.length then
        let a : Int := if parts.getD 0 [] = ['-'] then 0
                       else parseIntOr0 (parts.getD 0 [])
        let r : Int := if parts.getD 1 [] = ['-'] then 0
                       else parseIntOr0 (parts.getD 1 [])
        intStr a ++ jstr "+/" ++ intStr r ++ jstr "-"
      else
        match runGitResult oracle.hunks with
        | .error _ => jstr "err"
        | .ok hunks =>
          if hunks.isEmpty then jstr "mod"
          else
            let first := (((splitCRLF hunks).map jsTrim).find?
              (fun l => !l.isEmpty)).getD (jstr "mod")
            collapseWs (first.take 40)

/-- `buildFileChanges(cwd)`: one entry per staged file, in discovery
order; the staged-file list and the per-file query outcomes are supplied
by the environment.  The sequential `await` loop never throws (each
iteration is total thanks to the `catch` in `analyzeFileChange`), so it
is a `map`. -/
def buildFileChanges (files : List JStr) (oracle : JStr → DiffOracle) :
    List FileChange :=
  files.map (fun f => ⟨f, analyzeFileChange (oracle f)⟩)

example :
    analyzeFileChange ⟨.ok (jstr "3\t1\ta.ts"), .ok []⟩ = jstr "3+/1-" := by
  decide

example :
    analyzeFileChange ⟨.ok (jstr "-\t-\tlogo.png"), .ok []⟩ = jstr "0+/0-" := by
  decide

example : analyzeFileChange ⟨.ok [], .ok []⟩ = jstr "unchanged" := by
  decide

example : analyzeFileChange ⟨.error (), .ok []⟩ = jstr "err" := by
  decide

example :
    analyzeFileChange ⟨.ok (jstr "oneline"), .ok (jstr "@@ -1 +1 @@  x")⟩ =
      jstr "@@ -1 +1 @@ x" := by
  decide

/-- What `escapeStr` emits for one character. -/
def escChar (c : Char) : JStr :=
  if c = '\\' then ['\\', '\\']
  else if c = '"' then ['\\', '"']
  else if c = '\n' then ['\\', 'n']
  else if c = '\r' then ['\\', 'r']
  else [c]

theorem replaceAll_append (t : Char) (rep : JStr) (a b : JStr) :
    replaceAll t rep (a ++ b) = replaceAll t rep a ++ replaceAll t rep b := by
  induction a with
  | nil => simp [replaceAll]
  | cons c cs ih => simp [replaceAll, ih]

theorem escapeStr_append (a b : JStr) :
    escapeStr (a ++ b) = escapeStr a ++ escapeStr b := by
  simp [escapeStr, replaceAll_append]

theorem escapeStr_single (c : Char) : escapeStr [c] = escChar c := by
  by_cases h1 : c = '\\'
  · subst h1; decide
  · by_cases h2 : c = '"'
    · subst h2; decide
    · by_cases h3 : c = '\n'
      · subst h3; decide
      · by_cases h4 : c = '\r'
        · subst h4; decide
        · simp [escapeStr, replaceAll, escChar, h1, h2, h3, h4]

theorem escapeStr_cons (c : Char) (s : JStr) :
    escapeStr (c :: s) = escChar c ++ escapeStr s := by
  have h : c :: s = [c] ++ s := rfl
  rw [h, escapeStr_append, escapeStr_single]

/-- Decoding of the character after a backslash, as done by every
standard JSON parser for the escapes `escapeStr` can emit. -/
def unescChar (c : Char) : Char :=
  if c = 'n' then '\n' else if c = 'r' then '\r' else c

/-- Standard JSON string-body unescaping: a backslash and the following
character decode to one character; everything else passes through. -/
def unescape : JStr → JStr
  | [] => []
  | c :: rest =>
    if c = '\\' then
      match rest with
      | [] => []
      | d :: rest2 => unescChar d :: unescape rest2
    else c :: unescape rest

/-- Escaping round-trips: decoding the escaped form of any string
recovers the string. -/
theorem unescape_escapeStr (s : JStr) : unescape (escapeStr s) = s := by
  induction s with
  | nil => rfl
  | cons c cs ih =>
    rw [escapeStr_cons]
    by_cases h1 : c = '\\'
    · subst h1; simp [escChar, unescape, unescChar, ih]
    · by_cases h2 : c = '"'
      · subst h2; simp [escChar, unescape, unescChar, ih]
      · by_cases h3 : c = '\n'
        · subst h3; simp [escChar, unescape, unescChar, ih]
        · by_cases h4 : c = '\r'
          · subst h4; simp [escChar, unescape, unescChar, ih]
          · simp only [escChar, if_neg h1, if_neg h2, if_neg h3, if_neg h4,
              List.singleton_append]
            rw [unescape.eq_def]
            simp [h1, ih]

/-- Consume an expected literal prefix, returning the remainder. -/
def expectChars (pat : JStr) (s : JStr) : Option JStr :=
  match pat, s with
  | [], rest => some rest
  | _ :: _, [] => none
  | p :: ps, c :: cs => if c = p then expectChars ps cs else none

/-- Standard JSON string-literal body parsing (after the opening quote):
decode up to the closing unescaped quote, return the decoded content and
the input remaining after the closing quote. -/
def parseJsonString : JStr → Option (JStr × JStr)
  | [] => none
  | c :: rest =>
    if c = '"' then some ([], rest)
    else if c = '\\' then
      match rest with
      | [] => none
      | d :: rest2 => (parseJsonString rest2).map (fun p => (unescChar d :: p.1, p.2))
    else (parseJsonString rest).map (fun p => (c :: p.1, p.2))

/-- Parse one `{"f":"…","c":"…"}` object, returning the decoded field
values and the remainder. -/
def parseItem (s : JStr) : Option ((JStr × JStr) × JStr) := do
  let s1 ← expectChars (jstr "\x7b\"f\":\"") s
  let (f, s2) ← parseJsonString s1
  let s3 ← expectChars (jstr ",\"c\":\"") s2
  let (c, s4) ← parseJsonString s3
  let s5 ← expectChars (jstr "\x7d") s4
  some ((f, c), s5)

/-- Parse a comma-separated sequence of items (fuel-bounded; any fuel at
least the number of items suffices). -/
def parseItems : Nat → JStr → Option (List (JStr × JStr) × JStr)
  | 0, _ => none
  | fuel + 1, s =>
    match parseItem s with
    | none => none
    | some (pr, rest) =>
      match rest with
      | [] => some ([pr], [])
      | c :: rest2 =>
        if c = ',' then (parseItems fuel rest2).map (fun q => (pr :: q.1, q.2))
        else some ([pr], c :: rest2)

/-- Parse the exact output grammar of `compressToJson`: the object
`{"files": […]}` (any run of spaces after the colon, so both the
`serialize` template and `JSON.stringify` output are covered), returning
the decoded `(f, c)` pairs. -/
def parseOutput (s : JStr) : Option (List (JStr × JStr)) :=
  match expectChars (jstr "\x7b\"files\":") s with
  | none => none
  | some s1 =>
    match expectChars (jstr "[") (s1.dropWhile (fun c => c = ' ')) with
    | none => none
    | some s3 =>
      match s3 with
      | [] => none
      | c :: rest =>
        if c = ']' then (if rest = jstr "\x7d" then some [] else none)
        else
          match parseItems (c :: rest).length (c :: rest) with
          | some (prs, rest2) => if rest2 = jstr "]\x7d" then some prs else none
          | none => none

example : parseOutput jsonEmpty = some [] := by decide

example :
    parseOutput (serialize [⟨jstr "a\"b", jstr "1+/2-"⟩, ⟨jstr "c", jstr "x"⟩]
        (fun c => c)) =
      some [(jstr "a\"b", jstr "1+/2-"), (jstr "c", jstr "x")] := by
  decide

theorem expectChars_append (pat rest : JStr) :
    expectChars pat (pat ++ rest) = some rest := by
  induction pat with
  | nil => rfl
  | cons p ps ih => simp [expectChars, ih]

theorem parseJsonString_escape (f rest : JStr) :
    parseJsonString (escapeStr f ++ '"' :: rest) = some (f, rest) := by
  induction f generalizing rest with
  | nil =>
    rw [show escapeStr [] = [] from rfl]
    rw [parseJsonString.eq_def]
    simp
  | cons c cs ih =>
    rw [escapeStr_cons]
    by_cases h1 : c = '\\'
    · subst h1; simp [escChar, parseJsonString, unescChar, ih]
    · by_cases h2 : c = '"'
      · subst h2; simp [escChar, parseJsonString, unescChar, ih]
      · by_cases h3 : c = '\n'
        · subst h3; simp [escChar, parseJsonString, unescChar, ih]
        · by_cases h4 : c = '\r'
          · subst h4; simp [escChar, parseJsonString, unescChar, ih]
          · simp only [escChar, if_neg h1, if_neg h2, if_neg h3, if_neg h4,
              List.singleton_append]
            rw [parseJsonString.eq_def]
            simp [h1, h2, ih]

theorem serItem_decomp (mapFn : JStr → JStr) (fc : FileChange) (rest : JStr) :
    serItem mapFn fc ++ rest =
      jstr "\x7b\"f\":\"" ++ (escapeStr fc.file ++ '"' ::
        (jstr ",\"c\":\"" ++ (escapeStr (mapFn fc.change) ++ '"' ::
          ('\x7d' :: rest)))) := by
  have h1 : jstr "\",\"c\":\"" = '"' :: jstr ",\"c\":\"" := by decide
  have h2 : jstr "\"\x7d" = ['"', '\x7d'] := by decide
  simp [serItem, h1, h2]

theorem parseItem_ser (mapFn : JStr → JStr) (fc : FileChange) (rest : JStr) :
    parseItem (serItem mapFn fc ++ rest) =
      some ((fc.file, mapFn fc.change), rest) := by
  rw [serItem_decomp]
  rw [parseItem]
  rw [expectChars_append]
  simp only [Option.bind_eq_bind, Option.some_bind]
  rw [parseJsonString_escape]
  simp only [Option.some_bind]
  rw [expectChars_append]
  simp only [Option.some_bind]
  rw [parseJsonString_escape]
  simp only [Option.some_bind]
  rw [show ('\x7d' :: rest) = jstr "\x7d" ++ rest from rfl, expectChars_append]
  rfl

theorem serItem_head (mapFn : JStr → JStr) (fc : FileChange) :
    ∃ t, serItem mapFn fc = '\x7b' :: t := by
  refine ⟨jstr "\"f\":\"" ++ escapeStr fc.file ++ jstr "\",\"c\":\"" ++
    escapeStr (mapFn fc.change) ++ jstr "\"\x7d", ?_⟩
  have h : jstr "\x7b\"f\":\"" = '\x7b' :: jstr "\"f\":\"" := by decide
  simp [serItem, h]

theorem serItem_length_pos (mapFn : JStr → JStr) (fc : FileChange) :
    0 < (serItem mapFn fc).length := by
  obtain ⟨t, ht⟩ := serItem_head mapFn fc
  simp [ht]

theorem joinComma_cons_ex (x : JStr) (xs : List JStr) :
    ∃ t, joinComma (x :: xs) = x ++ t := by
  cases xs with
  | nil => exact ⟨[], by simp [joinComma]⟩
  | cons y ys => exact ⟨',' :: joinComma (y :: ys), by simp [joinComma]⟩

theorem length_le_joinComma_serItem (mapFn : JStr → JStr) :
    ∀ arr : List FileChange,
      arr.length ≤ (joinComma (arr.map (serItem mapFn))).length
  | [] => by simp [joinComma]
  | [a] => by
    simpa [joinComma] using serItem_length_pos mapFn a
  | a :: b :: tl => by
    have ih := length_le_joinComma_serItem mapFn (b :: tl)
    have ha := serItem_length_pos mapFn a
    simp only [List.map_cons, joinComma, List.length_cons, List.length_append]
    simp only [List.map_cons, List.length_cons] at ih
    omega

theorem parseItems_ser (mapFn : JStr → JStr) :
    ∀ (arr : List FileChange) (fuel : Nat) (r0 : JStr),
      arr ≠ [] → arr.length ≤ fuel →
      parseItems fuel (joinComma (arr.map (serItem mapFn)) ++ ']' :: r0) =
        some (arr.map (fun fc => (fc.file, mapFn fc.change)), ']' :: r0) := by
  intro arr
  induction arr with
  | nil => intro fuel r0 hne _; exact absurd rfl hne
  | cons a tl ih =>
    intro fuel r0 _ hfuel
    cases fuel with
    | zero => simp at hfuel
    | succ f =>
      cases tl with
      | nil =>
        simp only [List.map_cons, List.map_nil, joinComma]
        rw [parseItems, parseItem_ser]
        simp
      | cons b tl2 =>
        simp only [List.map_cons, joinComma]
        have hassoc :
            (serItem mapFn a ++ ',' ::
              joinComma (serItem mapFn b :: tl2.map (serItem mapFn))) ++
                ']' :: r0 =
            serItem mapFn a ++ (',' ::
              (joinComma (serItem mapFn b :: tl2.map (serItem mapFn)) ++
                ']' :: r0)) := by
          simp
        rw [hassoc, parseItems, parseItem_ser]
        have hlen : (b :: tl2).length ≤ f := by
          simpa using Nat.lt_of_succ_le (by simpa using hfuel)
        have := ih f r0 (by simp) hlen
        simp only [List.map_cons] at this
        simp [this]

theorem parseOutput_serialize (arr : List FileChange) (mapFn : JStr → JStr) :
    parseOutput (serialize arr mapFn) =
      some (arr.map (fun fc => (fc.file, mapFn fc.change))) := by
  have hdec : jstr "\x7b\"files\": [" =
      jstr "\x7b\"files\":" ++ ' ' :: '[' :: [] := by decide
  have hser : serialize arr mapFn =
      jstr "\x7b\"files\":" ++ (' ' :: '[' ::
        (joinComma (arr.map (serItem mapFn)) ++ ']' :: ['\x7d'])) := by
    have hend : jstr "]\x7d" = ']' :: ['\x7d'] := by decide
    simp [serialize, hdec, hend]
  rw [parseOutput, hser, expectChars_append]
  dsimp only
  have hdrop : List.dropWhile (fun c => c = ' ')
      (' ' :: '[' :: (joinComma (arr.map (serItem mapFn)) ++ ']' :: ['\x7d'])) =
      '[' :: (joinComma (arr.map (serItem mapFn)) ++ ']' :: ['\x7d']) := by
    rw [List.dropWhile_cons, if_pos (by decide), List.dropWhile_cons,
      if_neg (by decide)]
  rw [hdrop]
  rw [show ('[' :: (joinComma (arr.map (serItem mapFn)) ++ ']' :: ['\x7d'])) =
    jstr "[" ++ (joinComma (arr.map (serItem mapFn)) ++ ']' :: ['\x7d'])
      from rfl]
  rw [expectChars_append]
  cases arr with
  | nil =>
    simp [joinComma]
    decide
  | cons a tl =>
    obtain ⟨t0, ht0⟩ := joinComma_cons_ex (serItem mapFn a)
      (tl.map (serItem mapFn))
    obtain ⟨t1, ht1⟩ := serItem_head mapFn a
    have hcons : joinComma ((a :: tl).map (serItem mapFn)) ++ ']' :: ['\x7d'] =
        '\x7b' :: (t1 ++ t0 ++ ']' :: ['\x7d']) := by
      simp only [List.map_cons]
      rw [ht0, ht1]
      simp
    rw [hcons]
    dsimp only
    rw [if_neg (show ¬(('\x7b' : Char) = ']') by decide)]
    have hlen : (a :: tl).length ≤
        ('\x7b' :: (t1 ++ t0 ++ ']' :: ['\x7d'])).length := by
      have h1 := length_le_joinComma_serItem mapFn (a :: tl)
      have h2 : joinComma ((a :: tl).map (serItem mapFn)) =
          '\x7b' :: (t1 ++ t0) := by
        simp only [List.map_cons]
        rw [ht0, ht1]
        simp
      rw [h2] at h1
      simp only [List.length_cons, List.length_append] at h1 ⊢
      omega
    have hps := parseItems_ser mapFn (a :: tl)
      (('\x7b' :: (t1 ++ t0 ++ ']' :: ['\x7d'])).length) ['\x7d']
      (by simp) hlen
    rw [hcons] at hps
    rw [hps]
    dsimp only
    rw [if_pos (show ((']' :: ['\x7d']) : JStr) = jstr "]\x7d" by decide)]

theorem innerFind_eq_some_iff (fc : List FileChange) (b : Int) (m : Nat) :
    ∀ k0 k, innerFind fc b m k0 = some k ↔
      (1 ≤ k ∧ k ≤ k0 ∧ fitsB fc b m k = true ∧
        ∀ j, k < j → j ≤ k0 → fitsB fc b m j = false) := by
  intro k0
  induction k0 with
  | zero =>
    intro k
    simp only [innerFind]
    constructor
    · intro h; cases h
    · rintro ⟨h1, h2, -, -⟩; omega
  | succ k0 ih =>
    intro k
    rw [innerFind]
    by_cases h : fitsB fc b m (k0 + 1) = true
    · rw [if_pos h]
      constructor
      · intro he
        cases he
        exact ⟨by omega, Nat.le_refl _, h, fun j hj hj2 => by omega⟩
      · rintro ⟨h1, h2, h3, h4⟩
        have : k = k0 + 1 := by
          by_contra hne
          have hk : k < k0 + 1 := by omega
          have := h4 (k0 + 1) hk (Nat.le_refl _)
          rw [this] at h
          exact Bool.noConfusion h
        rw [this]
    · rw [if_neg h]
      have hfalse : fitsB fc b m (k0 + 1) = false :=
        Bool.eq_false_iff.mpr (fun hh => h hh)
      rw [ih k]
      constructor
      · rintro ⟨h1, h2, h3, h4⟩
        refine ⟨h1, by omega, h3, fun j hj hj2 => ?_⟩
        by_cases hje : j = k0 + 1
        · rw [hje]; exact hfalse
        · exact h4 j hj (by omega)
      · rintro ⟨h1, h2, h3, h4⟩
        have hk : k ≤ k0 := by
          by_contra hk
          have : k = k0 + 1 := by omega
          rw [this] at h3
          rw [h3] at hfalse
          cases hfalse
        exact ⟨h1, hk, h3, fun j hj hj2 => h4 j hj (by omega)⟩

theorem innerFind_eq_none_iff (fc : List FileChange) (b : Int) (m : Nat) :
    ∀ k0, innerFind fc b m k0 = none ↔
      ∀ j, 1 ≤ j → j ≤ k0 → fitsB fc b m j = false := by
  intro k0
  induction k0 with
  | zero => simp [innerFind]; omega
  | succ k0 ih =>
    rw [innerFind]
    by_cases h : fitsB fc b m (k0 + 1) = true
    · rw [if_pos h]
      constructor
      · intro he; cases he
      · intro hall
        have := hall (k0 + 1) (by omega) (Nat.le_refl _)
        rw [this] at h
        exact Bool.noConfusion h
    · rw [if_neg h]
      have hfalse : fitsB fc b m (k0 + 1) = false :=
        Bool.eq_false_iff.mpr (fun hh => h hh)
      rw [ih]
      constructor
      · intro hall j hj hj2
        by_cases hje : j = k0 + 1
        · rw [hje]; exact hfalse
        · exact hall j hj (by omega)
      · intro hall j hj hj2
        exact hall j hj (by omega)

theorem outerFind_range'_eq_some_iff (fc : List FileChange) (b : Int) :
    ∀ (n s m k : Nat), outerFind fc b (List.range' s n) = some (m, k) ↔
      (s ≤ m ∧ m < s + n ∧ innerFind fc b m fc.length = some k ∧
        ∀ m', s ≤ m' → m' < m → innerFind fc b m' fc.length = none) := by
  intro n
  induction n with
  | zero =>
    intro s m k
    simp only [List.range', outerFind]
    constructor
    · intro h; cases h
    · rintro ⟨h1, h2, -, -⟩; omega
  | succ n ih =>
    intro s m k
    rw [List.range'_succ, outerFind]
    cases hinner : innerFind fc b s fc.length with
    | some k2 =>
      constructor
      · intro he
        cases he
        exact ⟨Nat.le_refl _, by omega, hinner, fun m' h1 h2 => by omega⟩
      · rintro ⟨h1, h2, h3, h4⟩
        have hms : m = s := by
          by_contra hne
          have := h4 s (Nat.le_refl _) (by omega)
          rw [this] at hinner
          cases hinner
        subst hms
        rw [hinner] at h3
        cases h3
        rfl
    | none =>
      rw [ih (s + 1) m k]
      constructor
      · rintro ⟨h1, h2, h3, h4⟩
        refine ⟨by omega, by omega, h3, fun m' hm1 hm2 => ?_⟩
        by_cases hms : m' = s
        · rw [hms]; exact hinner
        · exact h4 m' (by omega) hm2
      · rintro ⟨h1, h2, h3, h4⟩
        have hm1 : s + 1 ≤ m := by
          by_contra hc
          have hms : m = s := by omega
          rw [hms] at h3
          rw [hinner] at h3
          cases h3
        exact ⟨hm1, by omega, h3, fun m' hm hm2 => h4 m' (by omega) hm2⟩

theorem outerFind_range'_eq_none_iff (fc : List FileChange) (b : Int) :
    ∀ (n s : Nat), outerFind fc b (List.range' s n) = none ↔
      ∀ m', s ≤ m' → m' < s + n → innerFind fc b m' fc.length = none := by
  intro n
  induction n with
  | zero =>
    intro s
    simp only [List.range', outerFind]
    constructor
    · intro _ m' h1 h2; omega
    · intro _; trivial
  | succ n ih =>
    intro s
    rw [List.range'_succ, outerFind]
    cases hinner : innerFind fc b s fc.length with
    | some k2 =>
      constructor
      · intro h; cases h
      · intro hall
        have := hall s (Nat.le_refl _) (by omega)
        rw [this] at hinner
        cases hinner
    | none =>
      rw [ih (s + 1)]
      constructor
      · intro hall m' h1 h2
        by_cases hms : m' = s
        · rw [hms]; exact hinner
        · exact hall m' (by omega) (by omega)
      · intro hall m' h1 h2
        exact hall m' (by omega) (by omega)

theorem tierMap_zero : tierMap 0 = fun c => c := rfl

theorem compressToJson_shape (fc : List FileChange) (maxLen : Int) :
    compressToJson fc maxLen = jsonEmpty ∨
    ∃ m k, m < tierMaps.length ∧ 1 ≤ k ∧ k ≤ fc.length ∧
      outerFind fc maxLen (List.range tierMaps.length) = some (m, k) ∧
      compressToJson fc maxLen = serialize (fc.take k) (tierMap m) := by
  by_cases h0 : fc.length = 0
  · left; simp [compressToJson, h0]
  · cases houter : outerFind fc maxLen (List.range tierMaps.length) with
    | none => left; simp [compressToJson, h0, houter]
    | some mk =>
      obtain ⟨m, k⟩ := mk
      right
      have hr : outerFind fc maxLen (List.range' 0 tierMaps.length) =
          some (m, k) := by
        rwa [List.range_eq_range'] at houter
      have hchar :=
        (outerFind_range'_eq_some_iff fc maxLen tierMaps.length 0 m k).mp hr
      obtain ⟨-, hm, hinner, -⟩ := hchar
      have hic := (innerFind_eq_some_iff fc maxLen m fc.length k).mp hinner
      obtain ⟨hk1, hk2, -, -⟩ := hic
      refine ⟨m, k, by simpa using hm, hk1, hk2, rfl, ?_⟩
      simp [compressToJson, h0, houter]

theorem compressToJson_parse (fc : List FileChange) (maxLen : Int) :
    ∃ m k, k ≤ fc.length ∧
      parseOutput (compressToJson fc maxLen) =
        some ((fc.take k).map (fun x => (x.file, tierMap m x.change))) := by
  rcases compressToJson_shape fc maxLen with h | ⟨m, k, -, -, hk2, -, heq⟩
  · refine ⟨0, 0, by omega, ?_⟩
    rw [h]
    have hpe : parseOutput jsonEmpty = some [] := by decide
    simp [hpe]
  · exact ⟨m, k, hk2, by rw [heq, parseOutput_serialize]⟩

/-- C1 (code bug): for the non-empty input `[{file: "a.ts", change: "mod"}]`
and the positive budget 20 (smaller than any serialization of the entry),
`compressToJson` returns `{"files":[]}`, whose `files` array is empty —
contradicting the documented invariant that the array is never empty for
non-empty input. -/
theorem compressToJson_returns_empty_files_for_nonempty_input :
    compressToJson [⟨jstr "a.ts", jstr "mod"⟩] 20 = jsonEmpty ∧
    parseOutput (compressToJson [⟨jstr "a.ts", jstr "mod"⟩] 20) = some [] := by
  decide

/-- C2 (code bug): when no shortening/dropping combination fits (one entry
with a 40-character descriptor and budget 20, or any input with budget 0),
`compressToJson` returns `{"files":[]}` — zero entries — not the documented
guaranteed fallback of exactly one entry with the basename of the first
file and descriptor `"mod"`. -/
theorem compressToJson_last_resort_is_empty :
    compressToJson [⟨jstr "src/a.ts", List.replicate 40 'x'⟩] 20 = jsonEmpty ∧
    compressToJson [⟨jstr "src/a.ts", List.replicate 40 'x'⟩] 0 = jsonEmpty ∧
    parseOutput jsonEmpty = some [] ∧
    jsonEmpty ≠ serialize [⟨jstr "a.ts", jstr "mod"⟩] (fun c => c) := by
  decide

/-- C4 counterexample: for the empty input list the full untruncated
serialization (13 characters, with the space of the template) fits the
budget 400, yet `compressToJson` returns the spaceless
`JSON.stringify({files: []})` form instead of that serialization. -/
theorem compressToJson_empty_input_not_full_serialization :
    ((serialize [] (fun c => c)).length : Int) ≤ 400 ∧
    compressToJson [] 400 ≠ serialize [] (fun c => c) ∧
    compressToJson [] 400 = jsonEmpty := by
  decide

/-- C4 amended: for every NON-EMPTY input list and every budget at least
the length of the full untruncated serialization, `compressToJson` returns
exactly that full serialization (order preserved, no truncation). -/
theorem compressToJson_full_when_fits (fc : List FileChange) (maxLen : Int)
    (hne : fc ≠ [])
    (hfit : ((serialize fc (fun c => c)).length : Int) ≤ maxLen) :
    compressToJson fc maxLen = serialize fc (fun c => c) := by
  have h0 : ¬ fc.length = 0 := fun h => hne (List.length_eq_zero.mp h)
  have hfits : fitsB fc maxLen 0 fc.length = true := by
    unfold fitsB
    rw [List.take_length, tierMap_zero]
    exact decide_eq_true hfit
  have hinner : innerFind fc maxLen 0 fc.length = some fc.length := by
    rw [innerFind_eq_some_iff]
    exact ⟨by omega, Nat.le_refl _, hfits, fun j hj hj2 => by omega⟩
  have houter : outerFind fc maxLen (List.range tierMaps.length) =
      some (0, fc.length) := by
    rw [List.range_eq_range', outerFind_range'_eq_some_iff]
    exact ⟨Nat.le_refl _, by decide, hinner, fun m' h1 h2 => by omega⟩
  simp [compressToJson, h0, houter, List.take_length, tierMap_zero]

/-- Witness for C4 amended: the small-input scenario of the spec, checked
end to end at `[{file: "a.ts", change: "3+/1-"}]` with budget 400. -/
theorem compressToJson_full_when_fits_witness :
    ([⟨jstr "a.ts", jstr "3+/1-"⟩] : List FileChange) ≠ [] ∧
    ((serialize [⟨jstr "a.ts", jstr "3+/1-"⟩] (fun c => c)).length : Int) ≤ 400 ∧
    compressToJson [⟨jstr "a.ts", jstr "3+/1-"⟩] 400 =
      jstr "\x7b\"files\": [\x7b\"f\":\"a.ts\",\"c\":\"3+/1-\"\x7d]\x7d" :=
  ⟨by decide, by decide,
    (compressToJson_full_when_fits _ 400 (by decide) (by decide)).trans
      (by decide)⟩

/-- C5: for every input and budget, the output of `compressToJson` parses,
and the sequence of decoded `f` values is a prefix (in original order) of
the input file list — entries are only dropped from the end. -/
theorem compressToJson_f_values_prefix (fileChanges : List FileChange)
    (maxLen : Int) :
    ∃ pairs, parseOutput (compressToJson fileChanges maxLen) = some pairs ∧
      pairs.map Prod.fst <+: fileChanges.map FileChange.file := by
  obtain ⟨m, k, hk, hp⟩ := compressToJson_parse fileChanges maxLen
  refine ⟨_, hp, ?_⟩
  have hfun : (Prod.fst ∘ fun x : FileChange => (x.file, tierMap m x.change)) =
      FileChange.file := funext fun x => rfl
  have hmap : ((fileChanges.take k).map
      (fun x => (x.file, tierMap m x.change))).map Prod.fst =
      (fileChanges.map FileChange.file).take k := by
    simp [List.map_map, List.map_take, hfun]
  rw [hmap]
  exact List.take_prefix k _

/-- C9: parsing the output of `compressToJson` with a standard JSON parser
recovers, for some tier `m` and kept count `k`, exactly the original file
paths of the first `k` entries and their tier-`m`-mapped descriptors; in
particular every path — whatever quotes, backslashes, newlines or carriage
returns it contains — and every untruncated descriptor round-trips to the
original string (tier 0 is the identity). -/
theorem compressToJson_escape_roundtrip (fileChanges : List FileChange)
    (maxLen : Int) :
    ∃ m k, k ≤ fileChanges.length ∧
      parseOutput (compressToJson fileChanges maxLen) =
        some ((fileChanges.take k).map
          (fun x => (x.file, tierMap m x.change))) ∧
      (m = 0 →
        parseOutput (compressToJson fileChanges maxLen) =
          some ((fileChanges.take k).map (fun x => (x.file, x.change)))) := by
  obtain ⟨m, k, hk, hp⟩ := compressToJson_parse fileChanges maxLen
  refine ⟨m, k, hk, hp, fun hm => ?_⟩
  rw [hm] at hp
  simpa [tierMap_zero] using hp

/-- Five staged files with one-character names and 13-character
descriptors (used to exercise the tier/drop interleaving). -/
def exMed : List FileChange :=
  [⟨jstr "a", List.replicate 13 'x'⟩, ⟨jstr "b", List.replicate 13 'x'⟩,
   ⟨jstr "c", List.replicate 13 'x'⟩, ⟨jstr "d", List.replicate 13 'x'⟩,
   ⟨jstr "e", List.replicate 13 'x'⟩]

/-- Five staged files with one-character names and 130-character
descriptors (used to exercise budget monotonicity). -/
def exLong : List FileChange :=
  [⟨jstr "a", List.replicate 130 'x'⟩, ⟨jstr "b", List.replicate 130 'x'⟩,
   ⟨jstr "c", List.replicate 130 'x'⟩, ⟨jstr "d", List.replicate 130 'x'⟩,
   ⟨jstr "e", List.replicate 130 'x'⟩]

/-- C3 counterexample: for `exMed` with budget 161, the 12-character tier
applied to the full five-entry list fits (157 ≤ 161) while the full
untruncated list does not (162 > 161), yet the output retains only four
entries: the inner loop drops files at the untruncated tier before the
outer loop ever reaches the fitting 12-character tier. -/
theorem compressToJson_drops_despite_fitting_tier :
    ¬ (((serialize exMed (fun c => c)).length : Int) ≤ 161) ∧
    ((serialize exMed (tierMap 1)).length : Int) ≤ 161 ∧
    (parseOutput (compressToJson exMed 161)).map List.length = some 4 := by
  decide

/-- C3 amended: for every non-empty input and budget, if some listed tier
`m` fits the FULL list, the search cannot fall through to the last resort:
the result is the serialization of a prefix at the first (tier, keep) pair
in search order — tier index ascending, keep count descending — so the
selected tier is at most `m`, the result fits the budget, no strictly
less aggressive tier fits any non-empty prefix, and all entries are kept
exactly when the full list fits at the selected tier. -/
theorem compressToJson_tier_when_full_fits (fc : List FileChange)
    (maxLen : Int) (m : Nat) (hm : m < tierMaps.length)
    (hfit : fitsB fc maxLen m fc.length = true) (hne : fc ≠ []) :
    ∃ m0 k0, m0 ≤ m ∧ 1 ≤ k0 ∧ k0 ≤ fc.length ∧
      fitsB fc maxLen m0 k0 = true ∧
      compressToJson fc maxLen = serialize (fc.take k0) (tierMap m0) ∧
      (fitsB fc maxLen m0 fc.length = true → k0 = fc.length) ∧
      ∀ m' k', m' < m0 → 1 ≤ k' → k' ≤ fc.length →
        fitsB fc maxLen m' k' = false := by
  have h0 : ¬ fc.length = 0 := fun h => hne (List.length_eq_zero.mp h)
  have hsome : ∃ m0 k0,
      outerFind fc maxLen (List.range' 0 tierMaps.length) = some (m0, k0) := by
    cases hh : outerFind fc maxLen (List.range' 0 tierMaps.length) with
    | some mk => exact ⟨mk.1, mk.2, rfl⟩
    | none =>
      exfalso
      have hall := (outerFind_range'_eq_none_iff fc maxLen tierMaps.length 0).mp hh
      have hinm := hall m (by omega) (by omega)
      have hf := (innerFind_eq_none_iff fc maxLen m fc.length).mp hinm
        fc.length (by omega) (Nat.le_refl _)
      rw [hf] at hfit
      exact Bool.noConfusion hfit
  obtain ⟨m0, k0, houter⟩ := hsome
  obtain ⟨-, hm0lt, hinner, hprev⟩ :=
    (outerFind_range'_eq_some_iff fc maxLen tierMaps.length 0 m0 k0).mp houter
  obtain ⟨hk1, hk2, hfits0, hmax⟩ :=
    (innerFind_eq_some_iff fc maxLen m0 fc.length k0).mp hinner
  have hm0le : m0 ≤ m := by
    by_contra hlt
    have hnone := hprev m (by omega) (by omega)
    have hf := (innerFind_eq_none_iff fc maxLen m fc.length).mp hnone
      fc.length (by omega) (Nat.le_refl _)
    rw [hf] at hfit
    exact Bool.noConfusion hfit
  refine ⟨m0, k0, hm0le, hk1, hk2, hfits0, ?_, ?_, ?_⟩
  · have houter' : outerFind fc maxLen (List.range tierMaps.length) =
        some (m0, k0) := by rwa [List.range_eq_range']
    simp [compressToJson, h0, houter']
  · intro hfull
    by_contra hne2
    have hf := hmax fc.length (by omega) (Nat.le_refl _)
    rw [hf] at hfull
    exact Bool.noConfusion hfull
  · intro m' k' hm' hk'1 hk'2
    exact (innerFind_eq_none_iff fc maxLen m' fc.length).mp
      (hprev m' (by omega) (by omega)) k' hk'1 hk'2

/-- Witness for C3 amended, at a single small entry with budget 400. -/
theorem compressToJson_tier_when_full_fits_witness :
    (0 < tierMaps.length ∧
      fitsB [⟨jstr "a.ts", jstr "3+/1-"⟩] 400 0
        ([⟨jstr "a.ts", jstr "3+/1-"⟩] : List FileChange).length = true ∧
      ([⟨jstr "a.ts", jstr "3+/1-"⟩] : List FileChange) ≠ []) ∧
    (∃ m0 k0, m0 ≤ 0 ∧ 1 ≤ k0 ∧
      k0 ≤ ([⟨jstr "a.ts", jstr "3+/1-"⟩] : List FileChange).length ∧
      fitsB [⟨jstr "a.ts", jstr "3+/1-"⟩] 400 m0 k0 = true ∧
      compressToJson [⟨jstr "a.ts", jstr "3+/1-"⟩] 400 =
        serialize (([⟨jstr "a.ts", jstr "3+/1-"⟩] : List FileChange).take k0)
          (tierMap m0) ∧
      (fitsB [⟨jstr "a.ts", jstr "3+/1-"⟩] 400 m0
          ([⟨jstr "a.ts", jstr "3+/1-"⟩] : List FileChange).length = true →
        k0 = ([⟨jstr "a.ts", jstr "3+/1-"⟩] : List FileChange).length) ∧
      ∀ m' k', m' < m0 → 1 ≤ k' →
        k' ≤ ([⟨jstr "a.ts", jstr "3+/1-"⟩] : List FileChange).length →
        fitsB [⟨jstr "a.ts", jstr "3+/1-"⟩] 400 m' k' = false) :=
  ⟨⟨by decide, by decide, by decide⟩,
    compressToJson_tier_when_full_fits [⟨jstr "a.ts", jstr "3+/1-"⟩] 400 0
      (by decide) (by decide) (by decide)⟩

/-- C6 counterexample: for the fixed input `exLong`, decreasing the budget
from 700 to 157 INCREASES the number of files retained from 4 to 5 (the
smaller budget forces the 12-character tier, at which all five entries
fit, while the larger budget keeps four entries untruncated). -/
theorem compressToJson_file_count_not_monotone :
    (157 : Int) ≤ 700 ∧
    (parseOutput (compressToJson exLong 700)).map List.length = some 4 ∧
    (parseOutput (compressToJson exLong 157)).map List.length = some 5 := by
  decide

/-- C6 amended: for a fixed input, decreasing the budget never decreases
the selected tier index, hence never increases the descriptor truncation
length retained; (the number of files retained, by contrast, is NOT
monotone in the budget). -/
theorem compressToJson_tier_monotone (fc : List FileChange) (b1 b2 : Int)
    (m1 k1 m2 k2 : Nat) (hb : b1 ≤ b2)
    (h1 : outerFind fc b1 (List.range tierMaps.length) = some (m1, k1))
    (h2 : outerFind fc b2 (List.range tierMaps.length) = some (m2, k2)) :
    m2 ≤ m1 ∧ ∀ s : JStr, (tierMap m1 s).length ≤ (tierMap m2 s).length := by
  rw [List.range_eq_range'] at h1 h2
  obtain ⟨-, hm1lt, hin1, -⟩ :=
    (outerFind_range'_eq_some_iff fc b1 tierMaps.length 0 m1 k1).mp h1
  obtain ⟨-, hm2lt, hin2, hprev2⟩ :=
    (outerFind_range'_eq_some_iff fc b2 tierMaps.length 0 m2 k2).mp h2
  obtain ⟨hk11, hk12, hfit1, -⟩ :=
    (innerFind_eq_some_iff fc b1 m1 fc.length k1).mp hin1
  have hfit2 : fitsB fc b2 m1 k1 = true := by
    unfold fitsB at hfit1 ⊢
    have hp := of_decide_eq_true hfit1
    exact decide_eq_true (le_trans hp hb)
  have hm21 : m2 ≤ m1 := by
    by_contra hlt
    have hnone := hprev2 m1 (by omega) (by omega)
    have hf := (innerFind_eq_none_iff fc b2 m1 fc.length).mp hnone k1 hk11 hk12
    rw [hf] at hfit2
    exact Bool.noConfusion hfit2
  have hlen5 : tierMaps.length = 5 := rfl
  have hm1b : m1 < 5 := by omega
  have hm2b : m2 < 5 := by omega
  have t1 : tierMap 1 = fun c => c.take 12 := rfl
  have t2 : tierMap 2 = fun c => c.take 6 := rfl
  have t3 : tierMap 3 = fun c => c.take 3 := rfl
  have t4 : tierMap 4 = fun c => c.take 1 := rfl
  refine ⟨hm21, fun s => ?_⟩
  interval_cases m1 <;> interval_cases m2 <;>
    simp [tierMap_zero, t1, t2, t3, t4, List.length_take]

/-- Witness for C6 amended: budgets 157 ≤ 700 on `exLong` select tiers 1
and 0 respectively; the tier for the smaller budget is at least the tier
for the larger one, and its truncation is at most as long on a sample
descriptor. -/
theorem compressToJson_tier_monotone_witness :
    (157 : Int) ≤ 700 ∧
    outerFind exLong 157 (List.range tierMaps.length) = some (1, 5) ∧
    outerFind exLong 700 (List.range tierMaps.length) = some (0, 4) ∧
    0 ≤ 1 ∧
    (tierMap 1 (List.replicate 130 'x')).length ≤
      (tierMap 0 (List.replicate 130 'x')).length :=
  ⟨by decide, by decide, by decide,
    (compressToJson_tier_monotone exLong 157 700 1 5 0 4 (by decide)
      (by decide) (by decide)).1,
    (compressToJson_tier_monotone exLong 157 700 1 5 0 4 (by decide)
      (by decide) (by decide)).2 (List.replicate 130 'x')⟩

theorem analyzeFileChange_error_eq (hk : Except Unit JStr) :
    analyzeFileChange ⟨.error (), hk⟩ = jstr "err" := rfl

theorem analyzeFileChange_ok_eq (s : JStr) (hk : Except Unit JStr) :
    analyzeFileChange ⟨.ok s, hk⟩ =
      (if (jsTrim s).isEmpty then jstr "unchanged"
       else
        let parts := List.splitOn '\t' ((splitCRLF (jsTrim s)).headD [])
        if 3 ≤ parts.length then
          let a : Int := if parts.getD 0 [] = ['-'] then 0
                         else parseIntOr0 (parts.getD 0 [])
          let r : Int := if parts.getD 1 [] = ['-'] then 0
                         else parseIntOr0 (parts.getD 1 [])
          intStr a ++ jstr "+/" ++ intStr r ++ jstr "-"
        else
          match runGitResult hk with
          | .error _ => jstr "err"
          | .ok hunks =>
            if hunks.isEmpty then jstr "mod"
            else
              let first := (((splitCRLF hunks).map jsTrim).find?
                (fun l => !l.isEmpty)).getD (jstr "mod")
              collapseWs (first.take 40)) := rfl

/-- C7 counterexample: when the staged numstat query succeeds but yields
no output, `analyzeFileChange` returns the literal `"unchanged"` — not
`"mod"` as the spec states — and `"unchanged"` is none of the descriptor
forms the data model admits. -/
theorem analyzeFileChange_unchanged_not_mod :
    analyzeFileChange ⟨.ok [], .ok []⟩ = jstr "unchanged" ∧
    jstr "unchanged" ≠ jstr "mod" := by
  decide

/-- C7 amended: when the numstat query succeeds with empty (trimmed)
output the descriptor is `"unchanged"`; `"mod"` is returned when the
numstat output is unparseable (fewer than three tab-separated fields) and
the fallback hunk query yields no output; and every descriptor is one of:
`"unchanged"`, `"mod"`, `"err"`, the `<added>+/<removed>-` count form, or
a whitespace-collapsed 40-character diff-snippet hint. -/
theorem analyzeFileChange_descriptor_forms (o : DiffOracle) :
    (∀ s, o.numstat = .ok s → jsTrim s = [] →
      analyzeFileChange o = jstr "unchanged") ∧
    (∀ s h, o.numstat = .ok s → jsTrim s ≠ [] →
      (List.splitOn '\t' ((splitCRLF (jsTrim s)).headD [])).length < 3 →
      o.hunks = .ok h → jsTrim h = [] → analyzeFileChange o = jstr "mod") ∧
    (analyzeFileChange o = jstr "unchanged" ∨
     analyzeFileChange o = jstr "mod" ∨
     analyzeFileChange o = jstr "err" ∨
     (∃ a r : Int, analyzeFileChange o =
        intStr a ++ jstr "+/" ++ intStr r ++ jstr "-") ∨
     (∃ line : JStr, analyzeFileChange o = collapseWs (line.take 40))) := by
  obtain ⟨ns, hk⟩ := o
  refine ⟨?_, ?_, ?_⟩
  · intro s hns htrim
    cases hns
    rw [analyzeFileChange_ok_eq]
    simp [htrim]
  · intro s h hns htrim hlt hhk htrimh
    cases hns
    cases hhk
    have hemp : ¬ (jsTrim s).isEmpty = true := by
      cases hx : jsTrim s with
      | nil => exact absurd hx htrim
      | cons a t => simp
    have heq : analyzeFileChange ⟨.ok s, Except.ok h⟩ =
        (if (jsTrim h).isEmpty then jstr "mod"
         else collapseWs (((((splitCRLF (jsTrim h)).map jsTrim).find?
           (fun l => !l.isEmpty)).getD (jstr "mod")).take 40)) := by
      rw [analyzeFileChange_ok_eq, if_neg hemp]
      simp only
      rw [if_neg (by omega)]
      rfl
    rw [heq]
    simp [htrimh]
  · cases ns with
    | error e =>
      cases e
      exact Or.inr (Or.inr (Or.inl (analyzeFileChange_error_eq hk)))
    | ok s =>
      by_cases hemp : (jsTrim s).isEmpty
      · rw [analyzeFileChange_ok_eq, if_pos hemp]
        exact Or.inl rfl
      · by_cases h3 : 3 ≤ (List.splitOn '\t'
            ((splitCRLF (jsTrim s)).headD [])).length
        · rw [analyzeFileChange_ok_eq, if_neg hemp]
          simp only
          rw [if_pos h3]
          exact Or.inr (Or.inr (Or.inr (Or.inl ⟨_, _, rfl⟩)))
        · cases hk with
          | error e =>
            cases e
            rw [analyzeFileChange_ok_eq, if_neg hemp]
            simp only
            rw [if_neg h3]
            exact Or.inr (Or.inr (Or.inl rfl))
          | ok h =>
            have heq : analyzeFileChange ⟨.ok s, Except.ok h⟩ =
                (if (jsTrim h).isEmpty then jstr "mod"
                 else collapseWs (((((splitCRLF (jsTrim h)).map jsTrim).find?
                   (fun l => !l.isEmpty)).getD (jstr "mod")).take 40)) := by
              rw [analyzeFileChange_ok_eq, if_neg hemp]
              simp only
              rw [if_neg h3]
              rfl
            by_cases hh : (jsTrim h).isEmpty
            · rw [heq, if_pos hh]
              exact Or.inr (Or.inl rfl)
            · rw [heq, if_neg hh]
              exact Or.inr (Or.inr (Or.inr (Or.inr ⟨_, rfl⟩)))

/-- Witness for C7 amended: a numstat success with empty output yields
`"unchanged"`, and unparseable numstat output with an empty hunk result
yields `"mod"`. -/
theorem analyzeFileChange_descriptor_forms_witness :
    analyzeFileChange ⟨.ok [], .ok []⟩ = jstr "unchanged" ∧
    analyzeFileChange ⟨.ok (jstr "oneline"), .ok []⟩ = jstr "mod" :=
  ⟨(analyzeFileChange_descriptor_forms ⟨.ok [], .ok []⟩).1 [] rfl (by decide),
   (analyzeFileChange_descriptor_forms ⟨.ok (jstr "oneline"), .ok []⟩).2.1
     (jstr "oneline") [] rfl (by decide) (by decide) rfl (by decide)⟩

/-- Example oracle for the failure-isolation scenario: the query for
`a.ts` throws, every other file reports `1+/2-`. -/
def exOracle : JStr → DiffOracle := fun f =>
  if f = jstr "a.ts" then ⟨.error (), .error ()⟩
  else ⟨.ok (jstr "1\t2\tb.ts"), .ok []⟩

/-- C8: a per-file inspection failure is absorbed as the `"err"`
descriptor and never propagates: `buildFileChanges` returns exactly one
entry per staged file, in discovery order, each entry carrying
`analyzeFileChange` of that file's query outcomes; a file whose numstat
query throws — or whose fallback hunk query throws — is tagged `"err"`,
and the batch is never aborted. -/
theorem buildFileChanges_isolates_failures (files : List JStr)
    (oracle : JStr → DiffOracle) :
    (buildFileChanges files oracle).map FileChange.file = files ∧
    (∀ fc, fc ∈ buildFileChanges files oracle →
      fc.change = analyzeFileChange (oracle fc.file)) ∧
    (∀ o : DiffOracle, o.numstat = .error () →
      analyzeFileChange o = jstr "err") ∧
    (∀ o : DiffOracle, ∀ s, o.numstat = .ok s → jsTrim s ≠ [] →
      (List.splitOn '\t' ((splitCRLF (jsTrim s)).headD [])).length < 3 →
      o.hunks = .error () → analyzeFileChange o = jstr "err") := by
  refine ⟨?_, ?_, ?_, ?_⟩
  · have hfun : (FileChange.file ∘ fun f =>
        (⟨f, analyzeFileChange (oracle f)⟩ : FileChange)) = id :=
      funext fun f => rfl
    simp [buildFileChanges, List.map_map, hfun]
  · intro fc hfc
    simp only [buildFileChanges, List.mem_map] at hfc
    obtain ⟨f, -, rfl⟩ := hfc
    rfl
  · intro o ho
    obtain ⟨ns, hk⟩ := o
    cases ho
    exact analyzeFileChange_error_eq hk
  · intro o s hns htrim hlt hhk
    obtain ⟨ns, hk⟩ := o
    cases hns
    cases hhk
    have hemp : ¬ (jsTrim s).isEmpty = true := by
      cases hx : jsTrim s with
      | nil => exact absurd hx htrim
      | cons a t => simp
    rw [analyzeFileChange_ok_eq, if_neg hemp]
    simp only
    rw [if_neg (by omega)]
    rfl

/-- Witness for C8: two staged files where the first file's queries throw
and the second reports counts; the batch yields both entries in order,
and the failing file is tagged `"err"`. -/
theorem buildFileChanges_isolates_failures_witness :
    (buildFileChanges [jstr "a.ts", jstr "b.ts"] exOracle).map
      FileChange.file = [jstr "a.ts", jstr "b.ts"] ∧
    analyzeFileChange (exOracle (jstr "a.ts")) = jstr "err" ∧
    buildFileChanges [jstr "a.ts", jstr "b.ts"] exOracle =
      [⟨jstr "a.ts", jstr "err"⟩, ⟨jstr "b.ts", jstr "1+/2-"⟩] :=
  ⟨(buildFileChanges_isolates_failures [jstr "a.ts", jstr "b.ts"] exOracle).1,
   (buildFileChanges_isolates_failures [jstr "a.ts", jstr "b.ts"]
      exOracle).2.2.1 (exOracle (jstr "a.ts")) (by decide),
   by decide⟩

/-- C10: when the staged numstat query succeeds, its trimmed output is
non-empty, and the first line has at least three tab-separated fields
with `"-"` in both the added and removed fields (as git reports for
binary files), `analyzeFileChange` returns `"0+/0-"`: unavailable counts
are coerced to zero and the snippet fallback is not consulted. -/
theorem analyzeFileChange_binary_numstat (raw : JStr)
    (hres : Except Unit JStr)
    (h1 : jsTrim raw ≠ [])
    (h2 : 3 ≤ (List.splitOn '\t' ((splitCRLF (jsTrim raw)).headD [])).length)
    (h3 : (List.splitOn '\t'
      ((splitCRLF (jsTrim raw)).headD [])).getD 0 [] = ['-'])
    (h4 : (List.splitOn '\t'
      ((splitCRLF (jsTrim raw)).headD [])).getD 1 [] = ['-']) :
    analyzeFileChange ⟨.ok raw, hres⟩ = jstr "0+/0-" := by
  have hemp : ¬ (jsTrim raw).isEmpty = true := by
    cases hx : jsTrim raw with
    | nil => exact absurd hx h1
    | cons a t => simp
  rw [analyzeFileChange_ok_eq, if_neg hemp]
  simp only
  rw [if_pos h2, if_pos h3, if_pos h4]
  decide

/-- Witness for C10: the numstat line git emits for a staged binary file,
`-<TAB>-<TAB>logo.png`, yields the descriptor `"0+/0-"`. -/
theorem analyzeFileChange_binary_numstat_witness :
    analyzeFileChange ⟨.ok (jstr "-\t-\tlogo.png"), .ok []⟩ = jstr "0+/0-" :=
  analyzeFileChange_binary_numstat (jstr "-\t-\tlogo.png") (.ok [])
    (by decide) (by decide) (by decide) (by decide)
